import Mathlib

/-!
Shallow embedding of the Companydle daily guessing game (a static JS app).

Modelling conventions, fixed once for the whole file:
* JS numbers that reach the comparison logic are finite rationals or `null`.
  The entity loader coerces every numeric field with `Number(...)` from a JSON
  document whose contract is `number | null`; JSON cannot express `NaN` or
  `Infinity`, so an attribute value is modelled as `Option ℚ` with `none`
  standing for `null`/`undefined` (the "unknown / not applicable" case that
  `bucketUpper` also uses for `NaN`).
* The `Infinity` upper bound of the last bucket of each bucket table is
  modelled as `none` in `Option ℚ`.
* 32-bit JS integer operations (`Math.imul`, `^`, `>>>`, `|`) are modelled on
  `Nat` with explicit `% 2^32` where overflow matters; signed and unsigned
  views agree bit-for-bit, and all values are kept `< 2^32`.
* `Math.floor(rand() * (i + 1))` with `rand() = k / 2^32` (`k < 2^32`) is the
  exact integer `k * (i + 1) / 2^32` whenever `k * (i + 1) < 2^53`, which holds
  for every realistic entity-list length; the embedding uses that exact form.
* DOM access, rendering and the clipboard are outside the model; the functions
  below return the data the UI would render (cell match flags, arrow strings,
  share text) and a flag recording whether the session was persisted.
-/

namespace Companydle

/-- Source: `const MAX_GUESSES = 8;`. -/
def MAX_GUESSES : Nat := 8

/-- One entry of a bucket table: display label and exclusive upper bound
(`none` models the JS `Infinity` used by every final bucket). -/
structure BucketDef where
  label : String
  upper : Option ℚ
deriving DecidableEq

/-- Result of `bucketUpper`: the label shown in the cell and the bucket index
(`-1` for the unknown sentinel). -/
structure BucketRes where
  label : String
  index : Int
deriving DecidableEq

/-- The JS test `value < bucketDefs[i].upper`, with `x < Infinity` true. -/
def ltUpper (v : ℚ) : Option ℚ → Bool
  | none => true
  | some u => decide (v < u)

/-- The scan loop of `bucketUpper` (source lines 163-165): first index whose
upper bound strictly exceeds the value, together with its label. -/
def bucketFind (v : ℚ) : List BucketDef → Option (String × Nat)
  | [] => none
  | d :: rest =>
    if ltUpper v d.upper then some (d.label, 0)
    else (bucketFind v rest).map (fun p => (p.1, p.2 + 1))

/-- Source `bucketUpper` (lines 159-167): null/undefined/NaN give the `N/A`
sentinel with index `-1`; otherwise the first bucket whose exclusive upper
bound exceeds the value; otherwise the final bucket.  The very last branch is
unreachable for a non-empty table (JS would throw on an empty one). -/
def bucketUpper (value : Option ℚ) (bucketDefs : List BucketDef) : BucketRes :=
  match value with
  | none => ⟨"N/A", -1⟩
  | some v =>
    match bucketFind v bucketDefs with
    | some p => ⟨p.1, (p.2 : Int)⟩
    | none =>
      match bucketDefs.getLast? with
      | some d => ⟨d.label, ((bucketDefs.length - 1 : Nat) : Int)⟩
      | none => ⟨"N/A", -1⟩

/-- Source `BUCKETS.founded`. -/
def foundedBuckets : List BucketDef :=
  [⟨"<1900", some 1900⟩, ⟨"1900–1949", some 1950⟩, ⟨"1950–1969", some 1970⟩,
   ⟨"1970–1989", some 1990⟩, ⟨"1990–2009", some 2010⟩, ⟨"2010+", none⟩]

/-- Source `BUCKETS.price`. -/
def priceBuckets : List BucketDef :=
  [⟨"<$25", some 25⟩, ⟨"$25–$50", some 50⟩, ⟨"$50–$100", some 100⟩,
   ⟨"$100–$200", some 200⟩, ⟨"$200–$500", some 500⟩, ⟨"$500+", none⟩]

/-- Source `BUCKETS.marketCap`. -/
def marketCapBuckets : List BucketDef :=
  [⟨"<$10B", some 10000000000⟩, ⟨"$10B–$50B", some 50000000000⟩,
   ⟨"$50B–$200B", some 200000000000⟩, ⟨"$200B–$500B", some 500000000000⟩,
   ⟨"$500B–$1T", some 1000000000000⟩, ⟨"$1T+", none⟩]

/-- Source `BUCKETS.employees`. -/
def employeesBuckets : List BucketDef :=
  [⟨"<10K", some 10000⟩, ⟨"10K–50K", some 50000⟩, ⟨"50K–100K", some 100000⟩,
   ⟨"100K–200K", some 200000⟩, ⟨"200K–500K", some 500000⟩, ⟨"500K+", none⟩]

/-- Source `BUCKETS.pe`. -/
def peBuckets : List BucketDef :=
  [⟨"<10", some 10⟩, ⟨"10–20", some 20⟩, ⟨"20–30", some 30⟩,
   ⟨"30–50", some 50⟩, ⟨"50–100", some 100⟩, ⟨"100+", none⟩]

/-- Source `arrowFor` (lines 169-173): empty string when either value is
absent or the values are equal, `▲` when guess < answer, `▼` otherwise. -/
def arrowFor (guessVal answerVal : Option ℚ) : String :=
  match guessVal, answerVal with
  | none, _ => ""
  | _, none => ""
  | some g, some a => if g = a then "" else if g < a then "▲" else "▼"

/-- An entity after the `init` coercion (source lines 459-471). -/
structure Company where
  name : String
  ticker : String
  sector : Option String
  hq : Option String
  founded : Option ℚ
  price : Option ℚ
  marketCap : Option ℚ
  employees : Option ℚ
  pe : Option ℚ
deriving DecidableEq

/-- The data `makeNumericCell` receives for one numeric attribute: the match
flag of the cell and the raw `arrowFor` string (the arrow is rendered only
when the cell is not a match). -/
structure NumCell where
  ok : Bool
  arrow : String
deriving DecidableEq

/-- The categorical cell test of `renderGuessRow` (lines 235, 238):
`(guess.x || "") === (answer.x || "")`. -/
def catOk (g a : Option String) : Bool :=
  g.getD "" == a.getD ""

/-- One strict numeric cell of `renderGuessRow` (the founded/price/marketCap/
employees pattern of lines 241-266): match iff equal bucket indices and the
guess bucket is not the unknown sentinel. -/
def numCell (g a : Option ℚ) (defs : List BucketDef) : NumCell :=
  let gi := (bucketUpper g defs).index
  let ai := (bucketUpper a defs).index
  ⟨gi == ai && gi != -1, arrowFor g a⟩

/-- The P/E cell of `renderGuessRow` (lines 268-274): additionally a match
when both indices are the unknown sentinel. -/
def peCell (g a : Option ℚ) : NumCell :=
  let gi := (bucketUpper g peBuckets).index
  let ai := (bucketUpper a peBuckets).index
  ⟨(gi == -1 && ai == -1) || (gi == ai && gi != -1), arrowFor g a⟩

/-- The five numeric attributes compared by `renderGuessRow`. -/
inductive NumAttr
  | founded
  | price
  | marketCap
  | employees
  | pe
deriving DecidableEq

/-- Bucket table used for each numeric attribute. -/
def bucketsOf : NumAttr → List BucketDef
  | .founded => foundedBuckets
  | .price => priceBuckets
  | .marketCap => marketCapBuckets
  | .employees => employeesBuckets
  | .pe => peBuckets

/-- Attribute value of a company. -/
def valueOf : NumAttr → Company → Option ℚ
  | .founded, c => c.founded
  | .price, c => c.price
  | .marketCap, c => c.marketCap
  | .employees, c => c.employees
  | .pe, c => c.pe

/-- Dispatch of `renderGuessRow`'s numeric cells: the P/E attribute uses the
special both-unknown rule, every other numeric attribute the strict rule. -/
def numCellOf : NumAttr → Option ℚ → Option ℚ → NumCell
  | .pe, g, a => peCell g a
  | .founded, g, a => numCell g a foundedBuckets
  | .price, g, a => numCell g a priceBuckets
  | .marketCap, g, a => numCell g a marketCapBuckets
  | .employees, g, a => numCell g a employeesBuckets

/-- The match flags of the seven attribute cells `renderGuessRow` displays for
one guess, in display order (lines 235-274). -/
def rowOkBools (g answer : Company) : List Bool :=
  [catOk g.sector answer.sector,
   catOk g.hq answer.hq,
   (numCellOf .founded g.founded answer.founded).ok,
   (numCellOf .price g.price answer.price).ok,
   (numCellOf .marketCap g.marketCap answer.marketCap).ok,
   (numCellOf .employees g.employees answer.employees).ok,
   (numCellOf .pe g.pe answer.pe).ok]

/-- The green/dark flags of the seven share-text tiles `makeShareText` emits
for one guess (source lines 296-307).  Note the four middle comparisons lack
the `index !== -1` guard that `renderGuessRow` applies. -/
def shareTileBools (g answer : Company) : List Bool :=
  [catOk g.sector answer.sector,
   catOk g.hq answer.hq,
   (bucketUpper g.founded foundedBuckets).index == (bucketUpper answer.founded foundedBuckets).index,
   (bucketUpper g.price priceBuckets).index == (bucketUpper answer.price priceBuckets).index,
   (bucketUpper g.marketCap marketCapBuckets).index == (bucketUpper answer.marketCap marketCapBuckets).index,
   (bucketUpper g.employees employeesBuckets).index == (bucketUpper answer.employees employeesBuckets).index,
   (let gi := (bucketUpper g.pe peBuckets).index
    let ai := (bucketUpper answer.pe peBuckets).index
    (gi == -1 && ai == -1) || (gi == ai && gi != -1))]

/-- Lower-case alphanumeric test for the character class `[a-z0-9]` of the
`normalize` regex. -/
def isAlnumLower (c : Char) : Bool :=
  ('a' ≤ c && c ≤ 'z') || ('0' ≤ c && c ≤ '9')

/-- Helper for the regex `[^a-z0-9]+ → " "` of `normalize`: the flag records
whether the previous character already opened a run (whose single replacement
space has been emitted). -/
def collapseAux : Bool → List Char → List Char
  | _, [] => []
  | inRun, c :: rest =>
    if isAlnumLower c then c :: collapseAux false rest
    else if inRun then collapseAux true rest
    else ' ' :: collapseAux true rest

/-- Drop the spaces at both ends of a character list (the only whitespace a
collapsed string can carry, so this is JS `trim` on it). -/
def trimSpaces (l : List Char) : List Char :=
  ((l.dropWhile (fun c => c == ' ')).reverse.dropWhile (fun c => c == ' ')).reverse

/-- Source `normalize` (lines 105-111): lower-case, `&` to " and ", each run
of non-alphanumerics to one space, trim.  `Char.toLower` matches JS
`toLowerCase` on the ASCII names and tickers the dataset uses. -/
def normalize (s : String) : String :=
  let lowered := s.toList.map Char.toLower
  let amped := lowered.flatMap (fun c => if c == '&' then " and ".toList else [c])
  String.mk (trimSpaces (collapseAux false amped))

/-- JS `String.prototype.trim` (the inputs are ASCII): drop whitespace at
both ends.  Written on character lists so concrete instances reduce inside
the kernel (`String.trim` is byte-indexed and does not). -/
def jsTrim (s : String) : String :=
  String.mk (((s.toList.dropWhile Char.isWhitespace).reverse.dropWhile
    Char.isWhitespace).reverse)

/-- JS `toLowerCase` on the ASCII dataset, character by character. -/
def jsToLower (s : String) : String :=
  String.mk (s.toList.map Char.toLower)

/-- JS `toUpperCase` on the ASCII dataset, character by character. -/
def jsToUpper (s : String) : String :=
  String.mk (s.toList.map Char.toUpper)

/-- JS `String.prototype.startsWith`, character by character. -/
def strStartsWith (s pre : String) : Bool :=
  pre.toList.isPrefixOf s.toList

/-- JS substring test (`String.prototype.includes`) on character lists. -/
def listHasSub (needle : List Char) : List Char → Bool
  | [] => needle.isEmpty
  | c :: rest => needle.isPrefixOf (c :: rest) || listHasSub needle rest

/-- JS `hay.includes(needle)`. -/
def strIncludes (hay needle : String) : Bool :=
  listHasSub needle.toList hay.toList

/-- Lookup in a JS `Map` built with `new Map(pairs)`: the last binding of a
key wins, a missing key gives `undefined` (here `none`). -/
def jsMapGet (pairs : List (String × Company)) (k : String) : Option Company :=
  (pairs.reverse.find? (fun p => p.1 == k)).map (fun p => p.2)

/-- Source `getSuggestions` (lines 345-360): entities whose normalized name or
lower-case ticker starts with the normalized query first, then those merely
containing it, capped at 12; a blank query yields nothing. -/
def getSuggestions (companies : List Company) (query : String) : List Company :=
  let q := normalize query
  if q == "" then []
  else
    let starts := fun c => strStartsWith (normalize c.name) q || strStartsWith (jsToLower c.ticker) q
    let hasQ := fun c => strIncludes (normalize c.name) q || strIncludes (jsToLower c.ticker) q
    let first := companies.filter starts
    let rest := companies.filter (fun c => !starts c && hasQ c)
    (first ++ rest).take 12

/-- The lookup tables `init` builds (lines 476-477) plus the validated entity
list used for suggestions. -/
structure Env where
  companies : List Company
  byTicker : List (String × Company)
  byName : List (String × Company)

/-- Source lines 476-477: `byTicker`/`byName` from the entity list. -/
def buildEnv (companies : List Company) : Env :=
  ⟨companies,
   companies.map (fun c => (c.ticker, c)),
   companies.map (fun c => (normalize c.name, c))⟩

/-- The guess-resolution steps of `submitGuess` (lines 389-398): exact ticker,
then exact normalized name, then a unique fuzzy suggestion. -/
def resolveCompany (env : Env) (raw : String) : Option Company :=
  let qTicker := jsToUpper raw
  let qNorm := normalize raw
  match jsMapGet env.byTicker qTicker with
  | some c => some c
  | none =>
    match jsMapGet env.byName qNorm with
    | some c => some c
    | none =>
      match getSuggestions env.companies raw with
      | [c] => some c
      | _ => none

/-- The persisted session record (source `loadState`/`saveState`). -/
structure GameState where
  date : String
  guesses : List String
  solved : Bool
deriving DecidableEq

/-- The session states of spec section 4.4, derived exactly as the code tests
them: `solved` flag first, then the guess budget. -/
inductive SessionStatus
  | active
  | solved
  | exhausted
deriving DecidableEq

/-- Derived session status: the checks of `submitGuess` lines 372-384 and
`hydrateFromState` lines 437-446. -/
def sessionStatus (s : GameState) : SessionStatus :=
  if s.solved then .solved
  else if MAX_GUESSES ≤ s.guesses.length then .exhausted
  else .active

/-- What `localStorage` + `JSON.parse` can hand to `loadState`: nothing
stored, a record that throws on parse, a parsed falsy value (`null` etc.,
caught by the `!parsed` test), or a parsed object with an optional `date`
string, a `guesses` field that is an array or not (`none`), and the
truthiness of its `solved` field. -/
inductive Stored
  | missing
  | corrupt
  | falsy
  | record (date : Option String) (guesses : Option (List String)) (solvedTruthy : Bool)

/-- The fresh session `loadState` creates for today. -/
def freshState (today : String) : GameState :=
  ⟨today, [], false⟩

/-- Source `loadState` (lines 179-192): discard anything missing, unparsable,
falsy or dated other than today; otherwise coerce `guesses` to an array and
`solved` to a boolean and restore. -/
def loadState (today : String) (stored : Stored) : GameState :=
  match stored with
  | .missing => freshState today
  | .corrupt => freshState today
  | .falsy => freshState today
  | .record date guesses solvedTruthy =>
    if date ≠ some today then freshState today
    else ⟨today, guesses.getD [], solvedTruthy⟩

/-- Outcome of one `submitGuess` call, read off from the status message and
control path of lines 368-423. -/
inductive SubmitOutcome
  | invalidState
  | emptyInput
  | noMatch
  | duplicateGuess
  | accepted (c : Company)
deriving DecidableEq

/-- True exactly on the accepted outcome. -/
def SubmitOutcome.isAcc : SubmitOutcome → Bool
  | .accepted _ => true
  | _ => false

/-- Source `submitGuess` (lines 368-423) as a pure transition: the result is
the outcome, the session state afterwards, and whether `saveState` ran.  The
`!answer` guard of line 370 is the startup `data_unavailable` case and is
outside this model (the UI is locked before any guess can be made). -/
def submitGuess (env : Env) (answer : Company) (state : GameState)
    (inputValue : String) : SubmitOutcome × GameState × Bool :=
  if state.solved then (.invalidState, state, false)
  else if MAX_GUESSES ≤ state.guesses.length then (.invalidState, state, false)
  else
    let raw := jsTrim inputValue
    if raw == "" then (.emptyInput, state, false)
    else
      match resolveCompany env raw with
      | none => (.noMatch, state, false)
      | some company =>
        if state.guesses.contains company.ticker then (.duplicateGuess, state, false)
        else
          let guesses' := state.guesses ++ [company.ticker]
          let solved' := if company.ticker == answer.ticker then true else state.solved
          (.accepted company, ⟨state.date, guesses', solved'⟩, true)

/-- The header line of `makeShareText` (lines 287-289). -/
def shareResultLine (state : GameState) : String :=
  if state.solved then
    "Solved in " ++ toString state.guesses.length ++ "/" ++ toString MAX_GUESSES
  else
    "Unsolved (0/" ++ toString MAX_GUESSES ++ ")"

/-- One emoji tile. -/
def tileChar (green : Bool) : String :=
  if green then "🟩" else "⬛"

/-- One tile row of `makeShareText` (lines 296-309). -/
def tileLine (g answer : Company) : String :=
  String.join ((shareTileBools g answer).map tileChar)

/-- Source `makeShareText` (lines 286-314): header, one tile row per resolved
guess in chronological order (unresolvable tickers are skipped), trailing
URL. -/
def makeShareText (env : Env) (answer : Company) (baseUrl : String)
    (state : GameState) : String :=
  let lines := state.guesses.filterMap
    (fun t => (jsMapGet env.byTicker t).map (fun g => tileLine g answer))
  "Companydle " ++ state.date ++ " — " ++ shareResultLine state ++ "\n" ++
    String.intercalate "\n" lines ++ "\n" ++ baseUrl

/-- The 32-bit wrap-around modulus. -/
def U32 : Nat := 4294967296

/-- JS `Math.imul` seen as a bit pattern: unsigned product mod `2^32`. -/
def imul (a b : Nat) : Nat :=
  (a * b) % U32

/-- One character step of `cyrb53` (lines 116-120). -/
def cyrb53Step (p : Nat × Nat) (ch : Nat) : Nat × Nat :=
  (imul (p.1 ^^^ ch) 2654435761, imul (p.2 ^^^ ch) 1597334677)

/-- Source `cyrb53` (lines 114-124) on a list of char codes, every 32-bit
intermediate kept unsigned; the result is the 53-bit hash. -/
def cyrb53 (codes : List Nat) (seed : Nat) : Nat :=
  let start := ((0xdeadbeef ^^^ seed) % U32, (0x41c6ce57 ^^^ seed) % U32)
  let p := codes.foldl cyrb53Step start
  let h1 := (imul (p.1 ^^^ (p.1 >>> 16)) 2246822507) ^^^ (imul (p.2 ^^^ (p.2 >>> 13)) 3266489909)
  let h2 := (imul (p.2 ^^^ (p.2 >>> 16)) 2246822507) ^^^ (imul (h1 ^^^ (h1 >>> 13)) 3266489909)
  4294967296 * (2097151 &&& h2) + h1

/-- One draw of the `mulberry32` generator (lines 126-136): new internal
state plus the 32-bit output `k`; the JS return value is `k / 2^32`. -/
def mulberryNext (t : Nat) : Nat × Nat :=
  let t' := (t + 0x6D2B79F5) % U32
  let x1 := imul (t' ^^^ (t' >>> 15)) (t' ||| 1)
  let x2 := x1 ^^^ ((x1 + imul (x1 ^^^ (x1 >>> 7)) (x1 ||| 61)) % U32)
  (t', x2 ^^^ (x2 >>> 14))

/-- The destructuring swap `[a[i], a[j]] = [a[j], a[i]]` of `seededShuffle`;
out-of-range indices leave the list unchanged (they cannot occur in the
loop). -/
def swapList (l : List α) (i j : Nat) : List α :=
  match l[i]?, l[j]? with
  | some x, some y => (l.set i y).set j x
  | _, _ => l

/-- The Fisher–Yates loop of `seededShuffle` (lines 142-145), counting the
loop variable `i` down to 1; `Math.floor(rand() * (i + 1))` is the exact
`k * (i + 1) / 2^32`. -/
def fyAux : List α → Nat → Nat → List α
  | a, _, 0 => a
  | a, t, i + 1 =>
    let s := mulberryNext t
    let j := s.2 * (i + 2) / U32
    fyAux (swapList a (i + 1) j) s.1 i

/-- Source `seededShuffle` (lines 138-147): seed `mulberry32` with the 32 low
bits of `cyrb53(seedStr)` and run Fisher–Yates over a copy of the list. -/
def seededShuffle (arr : List α) (seedCodes : List Nat) : List α :=
  fyAux arr (cyrb53 seedCodes 0 % U32) (arr.length - 1)

/-- Char codes of `ANSWER_SALT = "companydle-v1"`. -/
def saltCodes : List Nat :=
  "companydle-v1".toList.map Char.toNat

/-- The non-negative wrapped index of `pickDailyAnswer` line 155; JS `%` on
integers is truncating remainder, `Int.tmod`. -/
def pickIdx (day : Int) (n : Nat) : Int :=
  (Int.tmod day n + n).tmod n

/-- Source `pickDailyAnswer` (lines 149-157) as a function of the UTC day
number that `getUTCDayNumber` extracts from the date string: `null` on an
empty list, else the schedule entry at the wrapped day index. -/
def pickDailyAnswer (answerList : List Company) (day : Int) : Option Company :=
  if answerList.length == 0 then none
  else
    let schedule := seededShuffle answerList saltCodes
    schedule.get? (pickIdx day schedule.length).toNat

/-! ### Bucket characterization lemmas -/

/-- Strict order on exclusive upper bounds, `none` (= `Infinity`) on top:
the sense in which a bucket table is strictly increasing. -/
def ubLt : Option ℚ → Option ℚ → Bool
  | some a, some b => decide (a < b)
  | some _, none => true
  | none, _ => false

theorem bucketFind_eq_some {v : ℚ} :
    ∀ {defs : List BucketDef} {lbl : String} {i : Nat},
    bucketFind v defs = some (lbl, i) →
    (∃ d, defs.get? i = some d ∧ ltUpper v d.upper = true ∧ lbl = d.label) ∧
    ∀ k d, k < i → defs.get? k = some d → ltUpper v d.upper = false := by
  intro defs
  induction defs with
  | nil => intro lbl i h; simp [bucketFind] at h
  | cons e rest ih =>
    intro lbl i h
    by_cases he : ltUpper v e.upper
    · simp [bucketFind, he] at h
      obtain ⟨h1, h2⟩ := h
      subst h1; subst h2
      refine ⟨⟨e, rfl, he, rfl⟩, ?_⟩
      intro k d hk
      omega
    · rw [show bucketFind v (e :: rest) =
          (bucketFind v rest).map (fun p => (p.1, p.2 + 1)) by
            simp [bucketFind, he]] at h
      rcases hrest : bucketFind v rest with _ | p
      · rw [hrest] at h
        simp at h
      rw [hrest] at h
      obtain ⟨p1, p2⟩ := p
      simp only [Option.map_some'] at h
      injection h with h'
      injection h' with hl hi
      subst hl; subst hi
      obtain ⟨⟨d, hd, hlt, hlbl⟩, hall⟩ := ih hrest
      refine ⟨⟨d, by simpa using hd, hlt, hlbl⟩, ?_⟩
      intro k dk hk hget
      match k with
      | 0 =>
        simp at hget
        subst hget
        simpa using he
      | k' + 1 =>
        exact hall k' dk (by omega) (by simpa using hget)

theorem bucketFind_eq_none {v : ℚ} :
    ∀ {defs : List BucketDef}, bucketFind v defs = none →
    ∀ k d, defs.get? k = some d → ltUpper v d.upper = false := by
  intro defs
  induction defs with
  | nil => intro _ k d hget; simp at hget
  | cons e rest ih =>
    intro h k d hget
    by_cases he : ltUpper v e.upper
    · simp [bucketFind, he] at h
    · simp [bucketFind, he] at h
      match k with
      | 0 =>
        simp at hget
        subst hget
        simpa using he
      | k' + 1 =>
        exact ih h k' d (by simpa using hget)

theorem bucketFind_first {v : ℚ} :
    ∀ {defs : List BucketDef} {i : Nat} {d : BucketDef},
    defs.get? i = some d → ltUpper v d.upper = true →
    (∀ k dk, k < i → defs.get? k = some dk → ltUpper v dk.upper = false) →
    bucketFind v defs = some (d.label, i) := by
  intro defs
  induction defs with
  | nil => intro i d hget; simp at hget
  | cons e rest ih =>
    intro i d hget hlt hall
    match i with
    | 0 =>
      simp at hget
      subst hget
      simp [bucketFind, hlt]
    | i' + 1 =>
      have he : ltUpper v e.upper = false := hall 0 e (by omega) rfl
      have := ih (by simpa using hget) hlt
        (fun k dk hk hg => hall (k + 1) dk (by omega) (by simpa using hg))
      simp [bucketFind, he, this]

theorem bucketUpper_of_find {v : ℚ} {defs : List BucketDef} {lbl : String} {i : Nat}
    (h : bucketFind v defs = some (lbl, i)) :
    bucketUpper (some v) defs = ⟨lbl, (i : Int)⟩ := by
  simp [bucketUpper, h]

theorem bucketUpper_some_nonneg (defs : List BucketDef) (hne : defs ≠ [])
    (v : ℚ) : 0 ≤ (bucketUpper (some v) defs).index := by
  rcases hf : bucketFind v defs with _ | p
  · rcases hl : defs.getLast? with _ | d
    · exact absurd (List.getLast?_eq_none_iff.mp hl) hne
    · simp [bucketUpper, hf, hl]
  · simp [bucketUpper, hf]

theorem bucketUpper_index_neg1_iff (defs : List BucketDef) (hne : defs ≠ [])
    (v : Option ℚ) : (bucketUpper v defs).index = -1 ↔ v = none := by
  match v with
  | none => simp [bucketUpper]
  | some q =>
    have := bucketUpper_some_nonneg defs hne q
    constructor
    · intro h
      omega
    · intro h
      exact absurd h (by simp)

/-- Claim C6: for every non-empty bucket table with strictly increasing upper
bounds whose final bound is unbounded (the shape the data model prescribes and
all five `BUCKETS` tables have), `bucketUpper` sends a present value to the
first bucket whose exclusive upper bound strictly exceeds it; a value equal to
some bucket's upper bound lands in the next bucket and never in that bucket;
an absent value yields the sentinel index `-1`, while every present value gets
a non-negative index. -/
theorem C6_bucket_assignment (defs : List BucketDef) (hne : defs ≠ [])
    (hlast : (defs.map BucketDef.upper).getLast? = some none)
    (hmono : defs.Pairwise (fun d e => ubLt d.upper e.upper = true)) :
    (∀ q : ℚ, ∃ i : Nat, (bucketUpper (some q) defs).index = (i : Int) ∧
        (∃ d, defs.get? i = some d ∧ ltUpper q d.upper = true ∧
          (bucketUpper (some q) defs).label = d.label) ∧
        (∀ k d, k < i → defs.get? k = some d → ltUpper q d.upper = false)) ∧
    (∀ (q : ℚ) (i : Nat) (d : BucketDef), defs.get? i = some d → d.upper = some q →
        (bucketUpper (some q) defs).index = (i : Int) + 1 ∧
        (bucketUpper (some q) defs).index ≠ (i : Int)) ∧
    bucketUpper none defs = ⟨"N/A", -1⟩ ∧
    (∀ q : ℚ, 0 ≤ (bucketUpper (some q) defs).index) := by
  have hlen : 0 < defs.length := List.length_pos.mpr hne
  have hlastd : ∃ dl, defs.get? (defs.length - 1) = some dl ∧ dl.upper = none := by
    rw [List.getLast?_eq_getElem?, List.length_map, List.getElem?_map] at hlast
    rcases hd : defs[defs.length - 1]? with _ | dl
    · rw [hd] at hlast; simp at hlast
    · rw [hd] at hlast
      simp at hlast
      exact ⟨dl, by simpa [List.get?_eq_getElem?] using hd, hlast⟩
  have hpair := List.pairwise_iff_get.mp hmono
  constructor
  · intro q
    obtain ⟨dl, hdl, hdlu⟩ := hlastd
    rcases hf : bucketFind q defs with _ | ⟨lbl, i⟩
    · exact absurd (bucketFind_eq_none hf (defs.length - 1) dl hdl)
        (by simp [hdlu, ltUpper])
    · obtain ⟨⟨d, hd, hlt, hlbl⟩, hall⟩ := bucketFind_eq_some hf
      rw [bucketUpper_of_find hf]
      exact ⟨i, rfl, ⟨d, hd, hlt, hlbl⟩, hall⟩
  refine ⟨?_, rfl, fun q => bucketUpper_some_nonneg defs hne q⟩
  intro q i d hget hup
  obtain ⟨dl, hdl, hdlu⟩ := hlastd
  obtain ⟨hi, -⟩ := List.get?_eq_some.mp hget
  have hine : i ≠ defs.length - 1 := by
    intro h
    rw [h, hdl] at hget
    have : dl = d := by injection hget
    rw [← this, hdlu] at hup
    exact Option.noConfusion hup
  have hisucc : i + 1 < defs.length := by omega
  have hgi : defs.get ⟨i, hi⟩ = d := by
    have h0 := List.get?_eq_get hi
    rw [hget] at h0
    exact (Option.some.inj h0).symm
  set d2 := defs.get ⟨i + 1, hisucc⟩ with hd2
  have hnext : ltUpper q d2.upper = true := by
    have h12 := hpair ⟨i, hi⟩ ⟨i + 1, hisucc⟩ (by simp)
    rw [hgi, hup, ← hd2] at h12
    rcases hu2 : d2.upper with _ | u
    · simp [ltUpper]
    · rw [hu2] at h12
      simp [ubLt] at h12
      simp [ltUpper]
      exact h12
  have hbefore : ∀ k dk, k < i + 1 → defs.get? k = some dk →
      ltUpper q dk.upper = false := by
    intro k dk hk hgetk
    obtain ⟨hkl, hgk⟩ := List.get?_eq_some.mp hgetk
    by_cases hki : k = i
    · subst hki
      have hdk : dk = d := by
        rw [hget] at hgetk
        exact (Option.some.inj hgetk).symm
      rw [hdk, hup]
      simp [ltUpper]
    · have hklt : k < i := by omega
      have hki' := hpair ⟨k, hkl⟩ ⟨i, hi⟩ (by simpa using hklt)
      rw [hgi, hup, hgk] at hki'
      rcases hu : dk.upper with _ | u
      · rw [hu] at hki'
        simp [ubLt] at hki'
      · rw [hu] at hki'
        simp [ubLt] at hki'
        simp [ltUpper]
        exact le_of_lt hki'
  have hfind := bucketFind_first (List.get?_eq_get hisucc) hnext hbefore
  rw [bucketUpper_of_find hfind]
  constructor
  · simp
  · simp only [ne_eq, Int.natCast_add]
    omega

/-- Claim C6, witness: on the founded table, the boundary value 1950 (the
upper bound of bucket 1) lands in bucket 2, and an absent value gets the
`N/A` sentinel. -/
theorem C6_witness :
    (bucketUpper (some 1950) foundedBuckets).index = 2 ∧
    bucketUpper none foundedBuckets = ⟨"N/A", -1⟩ := by
  have h := C6_bucket_assignment foundedBuckets (by decide) (by rfl) (by decide)
  refine ⟨?_, h.2.2.1⟩
  have h2 := (h.2.1 1950 1 ⟨"1900–1949", some 1950⟩ rfl rfl).1
  rw [h2]
  decide

/-! ### Arrow and match-rule theorems -/

/-- Claim C7: the match flag of every numeric cell is symmetric in guess and
answer for every bucket table (both the strict rule and the P/E rule), the
arrow is anti-symmetric (up for (a,b) exactly when down for (b,a)), points up
exactly when guess < answer, down exactly when answer < guess, and is empty
exactly on equality or when either side is absent. -/
theorem C7_arrow_algebra :
    (∀ (defs : List BucketDef) (g a : Option ℚ),
      (numCell g a defs).ok = (numCell a g defs).ok) ∧
    (∀ g a : Option ℚ, (peCell g a).ok = (peCell a g).ok) ∧
    (∀ gv av : ℚ,
      (arrowFor (some gv) (some av) = "▲" ↔ arrowFor (some av) (some gv) = "▼")) ∧
    (∀ gv av : ℚ,
      (arrowFor (some gv) (some av) = "▲" ↔ gv < av) ∧
      (arrowFor (some gv) (some av) = "▼" ↔ av < gv) ∧
      (arrowFor (some gv) (some av) = "" ↔ gv = av)) ∧
    (∀ a : Option ℚ, arrowFor none a = "") ∧
    (∀ g : Option ℚ, arrowFor g none = "") := by
  have harr : ∀ gv av : ℚ,
      (arrowFor (some gv) (some av) = "▲" ↔ gv < av) ∧
      (arrowFor (some gv) (some av) = "▼" ↔ av < gv) ∧
      (arrowFor (some gv) (some av) = "" ↔ gv = av) := by
    intro gv av
    rcases lt_trichotomy gv av with h | h | h
    · rw [show arrowFor (some gv) (some av) = "▲" by
        simp [arrowFor, h, ne_of_lt h]]
      refine ⟨by simp [h], ?_, ?_⟩
      · simp [(by decide : ("▲" : String) ≠ "▼")]
        exact le_of_lt h
      · simp [(by decide : ("▲" : String) ≠ "")]
        exact ne_of_lt h
    · rw [show arrowFor (some gv) (some av) = "" by simp [arrowFor, h]]
      subst h
      refine ⟨?_, ?_, by simp⟩
      · simp [(by decide : ("" : String) ≠ "▲")]
      · simp [(by decide : ("" : String) ≠ "▼")]
    · rw [show arrowFor (some gv) (some av) = "▼" by
        simp [arrowFor, (ne_of_lt h).symm, asymm h]]
      refine ⟨?_, by simp [h], ?_⟩
      · simp [(by decide : ("▼" : String) ≠ "▲")]
        exact le_of_lt h
      · simp [(by decide : ("▼" : String) ≠ "")]
        exact (ne_of_lt h).symm
  refine ⟨?_, ?_, ?_, harr, ?_, ?_⟩
  · intro defs g a
    simp only [numCell]
    rcases eq_or_ne (bucketUpper g defs).index (bucketUpper a defs).index with h | h
    · rw [h]
    · have h1 : ((bucketUpper g defs).index == (bucketUpper a defs).index) = false :=
        beq_eq_false_iff_ne.mpr h
      have h2 : ((bucketUpper a defs).index == (bucketUpper g defs).index) = false :=
        beq_eq_false_iff_ne.mpr (Ne.symm h)
      rw [h1, h2]
      simp
  · intro g a
    simp only [peCell]
    rcases eq_or_ne (bucketUpper g peBuckets).index (bucketUpper a peBuckets).index with h | h
    · rw [h]
    · have h1 : ((bucketUpper g peBuckets).index == (bucketUpper a peBuckets).index) = false :=
        beq_eq_false_iff_ne.mpr h
      have h2 : ((bucketUpper a peBuckets).index == (bucketUpper g peBuckets).index) = false :=
        beq_eq_false_iff_ne.mpr (Ne.symm h)
      rw [h1, h2]
      simp [Bool.and_comm]
  · intro gv av
    rw [(harr gv av).1, (harr av gv).2.1]
  · intro a
    cases a <;> rfl
  · intro g
    match g with
    | none => rfl
    | some gv => rfl

/-- Claim C7, witness: a concrete instance of the arrow characterization,
3 vs 5 points up. -/
theorem C7_witness : arrowFor (some 3) (some 5) = "▲" ↔ (3 : ℚ) < 5 :=
  (C7_arrow_algebra.2.2.2.1 3 5).1

/-- Claim C2, counterexample: for the `founded` comparison (and likewise
price, marketCap, employees) a both-unknown pair is displayed as a mismatch,
not the match the claim asserts for all numeric attributes. -/
theorem C2_counterexample :
    (numCellOf NumAttr.founded none none).ok = false ∧
    arrowFor none none = "" := by
  constructor <;> rfl

/-- Claim C2, amended: only the P/E comparison treats both-unknown as a
match; for founded, price, marketCap and employees the match flag is set
exactly when both values fall in the same non-sentinel bucket, so a
both-unknown pair is a mismatch there; in every case a both-unknown pair
carries no arrow. -/
theorem C2_numeric_match (attr : NumAttr) (g a : Option ℚ) :
    ((numCellOf attr g a).ok = true ↔
      ((bucketUpper g (bucketsOf attr)).index = (bucketUpper a (bucketsOf attr)).index ∧
        (bucketUpper g (bucketsOf attr)).index ≠ -1) ∨
      (attr = NumAttr.pe ∧ g = none ∧ a = none)) ∧
    (g = none → a = none → (numCellOf attr g a).arrow = "") := by
  have harrow : ∀ attr : NumAttr, g = none → a = none →
      (numCellOf attr g a).arrow = "" := by
    intro attr hg ha
    subst hg; subst ha
    cases attr <;> rfl
  refine ⟨?_, harrow attr⟩
  have hpe : peBuckets ≠ [] := by simp [peBuckets]
  cases attr with
  | pe =>
    simp only [numCellOf, peCell, bucketsOf]
    constructor
    · intro h
      simp only [Bool.or_eq_true, Bool.and_eq_true, beq_iff_eq, bne_iff_ne, ne_eq] at h
      rcases h with ⟨h1, h2⟩ | ⟨h1, h2⟩
      · exact Or.inr ⟨trivial, (bucketUpper_index_neg1_iff peBuckets hpe g).mp h1,
          (bucketUpper_index_neg1_iff peBuckets hpe a).mp h2⟩
      · exact Or.inl ⟨h1, h2⟩
    · intro h
      simp only [Bool.or_eq_true, Bool.and_eq_true, beq_iff_eq, bne_iff_ne, ne_eq]
      rcases h with ⟨h1, h2⟩ | ⟨-, hg, ha⟩
      · exact Or.inr ⟨h1, h2⟩
      · exact Or.inl ⟨(bucketUpper_index_neg1_iff peBuckets hpe g).mpr hg,
          (bucketUpper_index_neg1_iff peBuckets hpe a).mpr ha⟩
  | founded =>
    simp only [numCellOf, numCell, bucketsOf]
    simp [Bool.and_eq_true, beq_iff_eq, bne_iff_ne]
  | price =>
    simp only [numCellOf, numCell, bucketsOf]
    simp [Bool.and_eq_true, beq_iff_eq, bne_iff_ne]
  | marketCap =>
    simp only [numCellOf, numCell, bucketsOf]
    simp [Bool.and_eq_true, beq_iff_eq, bne_iff_ne]
  | employees =>
    simp only [numCellOf, numCell, bucketsOf]
    simp [Bool.and_eq_true, beq_iff_eq, bne_iff_ne]

/-- Claim C2, witness for the amended statement at concrete inputs: the P/E
cell matches on a both-unknown pair and the founded cell carries no arrow
there. -/
theorem C2_witness :
    (numCellOf NumAttr.pe none none).ok = true ∧
    (numCellOf NumAttr.founded none none).arrow = "" := by
  constructor
  · exact (C2_numeric_match NumAttr.pe none none).1.mpr (Or.inr ⟨rfl, rfl, rfl⟩)
  · exact (C2_numeric_match NumAttr.founded none none).2 rfl rfl

/-- Guess used for the share/row divergence: every numeric attribute
unknown. -/
def shareDivGuess : Company :=
  ⟨"Alpha Metals", "AAA", some "Materials", some "OH", none, none, none, none, none⟩

/-- Answer used for the share/row divergence: a different company, every
numeric attribute unknown. -/
def shareDivAnswer : Company :=
  ⟨"Beta Chemical", "BBB", some "Materials", some "OH", none, none, none, none, none⟩

/-- Claim C1: the share text does NOT reproduce the displayed row when guess
and answer are both unknown on a non-P/E numeric attribute: `makeShareText`
emits a green founded tile (`-1 === -1` with no sentinel guard, line 299)
while `renderGuessRow` displayed that cell as a mismatch (line 244 requires
`g.index !== -1`), so the seven share tiles differ from the seven displayed
match flags for this guess/answer pair. -/
theorem C1_share_row_divergence :
    shareTileBools shareDivGuess shareDivAnswer ≠
      rowOkBools shareDivGuess shareDivAnswer ∧
    shareTileBools shareDivGuess shareDivAnswer =
      [true, true, true, true, true, true, true] ∧
    rowOkBools shareDivGuess shareDivAnswer =
      [true, true, false, false, false, false, true] := by
  refine ⟨by decide, by decide, by decide⟩

/-! ### Share header and persistence loading -/

/-- Claim C10: the share-text header of a finished session reports the
attempt count as 0 when the session is unsolved, regardless of how many
guesses were actually made, and the actual guess count when solved. -/
theorem C10_share_header (st : GameState)
    (hfin : st.solved = true ∨ MAX_GUESSES ≤ st.guesses.length) :
    (st.solved = false → shareResultLine st = "Unsolved (0/8)") ∧
    (st.solved = true →
      shareResultLine st = "Solved in " ++ toString st.guesses.length ++ "/8") := by
  constructor
  · intro h
    simp only [shareResultLine, h, Bool.false_eq_true, if_false]
    rfl
  · intro h
    simp only [shareResultLine, h, if_true]
    rw [String.append_assoc, String.append_assoc]
    rfl

/-- Claim C10, witness: a session that used all eight guesses without solving
still shares as `Unsolved (0/8)`. -/
theorem C10_witness :
    shareResultLine ⟨"2025-06-05",
      ["AAPL", "MSFT", "GOOG", "AMZN", "META", "TSLA", "NVDA", "NFLX"], false⟩ =
      "Unsolved (0/8)" :=
  (C10_share_header ⟨"2025-06-05",
      ["AAPL", "MSFT", "GOOG", "AMZN", "META", "TSLA", "NVDA", "NFLX"], false⟩
      (Or.inr (by decide))).1 rfl

/-- Claim C8: `loadState` never fails (it is a total function on every stored
shape): a missing record, an unparsable record, a parsed falsy value, and a
record dated other than today each yield the fresh empty session for today,
while a record dated today is restored with `guesses` coerced to an array
(`[]` when the field is not an array) and `solved` coerced to a boolean. -/
theorem C8_load_state (today : String) :
    loadState today Stored.missing = freshState today ∧
    loadState today Stored.corrupt = freshState today ∧
    loadState today Stored.falsy = freshState today ∧
    (∀ d gs sv, d ≠ some today →
      loadState today (Stored.record d gs sv) = freshState today) ∧
    (∀ gs sv, loadState today (Stored.record (some today) gs sv) =
      ⟨today, gs.getD [], sv⟩) ∧
    freshState today = ⟨today, [], false⟩ := by
  refine ⟨rfl, rfl, rfl, ?_, ?_, rfl⟩
  · intro d gs sv hd
    simp [loadState, hd]
  · intro gs sv
    simp [loadState]

/-- Claim C8, witness: a record with no date field (hence stale) is discarded
in favour of the fresh session. -/
theorem C8_witness :
    loadState "2025-01-01" (Stored.record none (some ["ACM"]) true) =
      freshState "2025-01-01" :=
  (C8_load_state "2025-01-01").2.2.2.1 none (some ["ACM"]) true (by simp)

/-! ### Submit-guess state machine -/

theorem sessionStatus_active_iff (s : GameState) :
    sessionStatus s = SessionStatus.active ↔
    s.solved = false ∧ s.guesses.length < MAX_GUESSES := by
  unfold sessionStatus
  by_cases h1 : s.solved <;> by_cases h2 : MAX_GUESSES ≤ s.guesses.length <;>
    simp [h1, h2] <;> omega

/-- A fixed demo company for the closed witnesses below. -/
def acme : Company :=
  ⟨"Acme Corp", "ACM", some "Tech", some "NY", some 1985, some 42,
   some 1000000000, some 5000, some 13⟩

/-- A one-company environment for the closed witnesses below. -/
def demoEnv : Env := buildEnv [acme]

/-- Claim C4: on an active session, an accepted guess (non-empty input that
resolves to a company whose ticker is not yet guessed) appends exactly that
ticker, sets the solved flag exactly when the guess equals the answer, and
persists; the resulting status is solved whenever the guess is the answer
(regardless of remaining budget), else exhausted when the budget is now
spent, else active. -/
theorem submitGuess_accepted_eq (env : Env) (answer : Company)
    (st : GameState) (input : String) (c : Company)
    (h1 : st.solved = false) (h2 : ¬MAX_GUESSES ≤ st.guesses.length)
    (h3 : (jsTrim input == "") = false)
    (hres : resolveCompany env (jsTrim input) = some c)
    (h4 : st.guesses.contains c.ticker = false) :
    submitGuess env answer st input =
      (SubmitOutcome.accepted c,
        ⟨st.date, st.guesses ++ [c.ticker],
          if c.ticker == answer.ticker then true else st.solved⟩, true) := by
  simp only [submitGuess, h1, Bool.false_eq_true, if_false, h2, h3, hres, h4]

theorem C4_accepted_guess (env : Env) (answer : Company) (st : GameState)
    (input : String) (c : Company)
    (hactive : sessionStatus st = SessionStatus.active)
    (hraw : jsTrim input ≠ "")
    (hres : resolveCompany env (jsTrim input) = some c)
    (hdup : st.guesses.contains c.ticker = false) :
    submitGuess env answer st input =
      (SubmitOutcome.accepted c,
        ⟨st.date, st.guesses ++ [c.ticker], c.ticker == answer.ticker⟩, true) ∧
    sessionStatus ⟨st.date, st.guesses ++ [c.ticker], c.ticker == answer.ticker⟩ =
      (if c.ticker = answer.ticker then SessionStatus.solved
       else if MAX_GUESSES ≤ st.guesses.length + 1 then SessionStatus.exhausted
       else SessionStatus.active) := by
  obtain ⟨hsol, hlen⟩ := (sessionStatus_active_iff st).mp hactive
  have hlen' : ¬MAX_GUESSES ≤ st.guesses.length := by omega
  have hraw' : (jsTrim input == "") = false := beq_eq_false_iff_ne.mpr hraw
  constructor
  · rw [submitGuess_accepted_eq env answer st input c hsol hlen' hraw' hres hdup]
    cases hb : c.ticker == answer.ticker <;> simp [hb, hsol]
  · by_cases heq : c.ticker = answer.ticker
    · simp [sessionStatus, heq]
    · have : (c.ticker == answer.ticker) = false := beq_eq_false_iff_ne.mpr heq
      simp [sessionStatus, this, heq]

/-- Claim C4, witness: guessing "acme" in a fresh one-company game resolves
by unique fuzzy suggestion, appends `ACM`, solves the session and persists. -/
theorem C4_witness :
    submitGuess demoEnv acme (freshState "2025-01-01") "acme" =
      (SubmitOutcome.accepted acme, ⟨"2025-01-01", ["ACM"], true⟩, true) :=
  (C4_accepted_guess demoEnv acme (freshState "2025-01-01") "acme" acme
    (by decide) (by decide) (by decide) (by decide)).1

/-- Claim C5: every rejected `submitGuess` call (terminal session, blank
input, unresolvable input, or duplicate ticker) leaves the session record
exactly as it was and persists nothing. -/
theorem C5_rejected_no_mutation (env : Env) (answer : Company)
    (st : GameState) (input : String)
    (h : (submitGuess env answer st input).1.isAcc = false) :
    (submitGuess env answer st input).2.1 = st ∧
    (submitGuess env answer st input).2.2 = false := by
  by_cases h1 : st.solved
  · simp [submitGuess, h1]
  · by_cases h2 : MAX_GUESSES ≤ st.guesses.length
    · simp [submitGuess, h1, h2]
    · by_cases h3 : jsTrim input == ""
      · simp [submitGuess, h1, h2, h3]
      · rcases hres : resolveCompany env (jsTrim input) with _ | c
        · simp [submitGuess, h1, h2, h3, hres]
        · by_cases h4 : st.guesses.contains c.ticker
          · have hm : c.ticker ∈ st.guesses := by simpa using h4
            simp [submitGuess, h1, h2, h3, hres, hm]
          · exfalso
            have hm : c.ticker ∉ st.guesses := by simpa using h4
            simp [submitGuess, h1, h2, h3, hres, hm, SubmitOutcome.isAcc] at h

/-- Claim C5, witness: re-guessing the already-guessed ticker `ACM` is
rejected as a duplicate with no state change and no persistence write. -/
theorem C5_witness :
    (submitGuess demoEnv acme ⟨"2025-01-01", ["ACM"], false⟩ "ACM").2.1 =
      ⟨"2025-01-01", ["ACM"], false⟩ ∧
    (submitGuess demoEnv acme ⟨"2025-01-01", ["ACM"], false⟩ "ACM").2.2 = false :=
  C5_rejected_no_mutation demoEnv acme ⟨"2025-01-01", ["ACM"], false⟩ "ACM"
    (by decide)

/-- Claim C9: `submitGuess` preserves the session invariant — a duplicate-free
guess list of length at most 8 stays duplicate-free and within the budget, and
the previous guess list survives as a prefix (guesses are only appended). -/
theorem C9_guess_list_invariant (env : Env) (answer : Company)
    (st : GameState) (input : String)
    (hnd : st.guesses.Nodup) (hlen : st.guesses.length ≤ MAX_GUESSES) :
    ((submitGuess env answer st input).2.1).guesses.Nodup ∧
    ((submitGuess env answer st input).2.1).guesses.length ≤ MAX_GUESSES ∧
    List.IsPrefix st.guesses ((submitGuess env answer st input).2.1).guesses := by
  by_cases h1 : st.solved
  · exact ⟨by simpa [submitGuess, h1] using hnd,
      by simpa [submitGuess, h1] using hlen,
      by simp [submitGuess, h1]⟩
  · by_cases h2 : MAX_GUESSES ≤ st.guesses.length
    · exact ⟨by simpa [submitGuess, h1, h2] using hnd,
        by simpa [submitGuess, h1, h2] using hlen,
        by simp [submitGuess, h1, h2]⟩
    · by_cases h3 : jsTrim input == ""
      · exact ⟨by simpa [submitGuess, h1, h2, h3] using hnd,
          by simpa [submitGuess, h1, h2, h3] using hlen,
          by simp [submitGuess, h1, h2, h3]⟩
      · rcases hres : resolveCompany env (jsTrim input) with _ | c
        · exact ⟨by simpa [submitGuess, h1, h2, h3, hres] using hnd,
            by simpa [submitGuess, h1, h2, h3, hres] using hlen,
            by simp [submitGuess, h1, h2, h3, hres]⟩
        · by_cases h4 : st.guesses.contains c.ticker
          · have hm : c.ticker ∈ st.guesses := by simpa using h4
            exact ⟨by simpa [submitGuess, h1, h2, h3, hres, hm] using hnd,
              by simpa [submitGuess, h1, h2, h3, hres, hm] using hlen,
              by simp [submitGuess, h1, h2, h3, hres, hm]⟩
          · have hmem : c.ticker ∉ st.guesses := by simpa using h4
            have h1f : st.solved = false := Bool.not_eq_true st.solved ▸ h1
            have h4f : st.guesses.contains c.ticker = false := by
              cases hc : st.guesses.contains c.ticker
              · rfl
              · exact absurd hc h4
            have h3f : (jsTrim input == "") = false := by
              cases hc : jsTrim input == ""
              · rfl
              · exact absurd hc h3
            rw [submitGuess_accepted_eq env answer st input c h1f h2 h3f hres h4f]
            refine ⟨?_, ?_, ⟨[c.ticker], rfl⟩⟩
            · simp only [List.nodup_append]
              exact ⟨hnd, List.nodup_singleton _,
                List.disjoint_singleton.mpr hmem⟩
            · simp only [List.length_append, List.length_singleton]
              omega

/-- Claim C9, witness: the invariant applied to a fresh one-company game and
the guess `ACM`. -/
theorem C9_witness :
    ((submitGuess demoEnv acme (freshState "2025-01-01") "ACM").2.1).guesses.Nodup ∧
    ((submitGuess demoEnv acme (freshState "2025-01-01") "ACM").2.1).guesses.length ≤ MAX_GUESSES ∧
    List.IsPrefix (freshState "2025-01-01").guesses
      ((submitGuess demoEnv acme (freshState "2025-01-01") "ACM").2.1).guesses :=
  C9_guess_list_invariant demoEnv acme (freshState "2025-01-01") "ACM"
    (by decide) (by decide)

/-! ### Scheduler: the shuffle is a permutation and the daily pick cycles -/

theorem set_self_of_get? :
    ∀ (l : List α) (i : Nat) (x : α), l[i]? = some x → l.set i x = l := by
  intro l
  induction l with
  | nil => intro i x h; simp at h
  | cons a t ih =>
    intro i x h
    cases i with
    | zero =>
      simp at h
      simp [h]
    | succ n =>
      simp at h
      simp [ih n x h]

theorem cons_set_perm :
    ∀ (t : List α) (k : Nat) (x a : α), t[k]? = some x →
    List.Perm (x :: t.set k a) (a :: t) := by
  intro t
  induction t with
  | nil => intro k x a h; simp at h
  | cons b t' ih =>
    intro k x a h
    cases k with
    | zero =>
      simp at h
      subst h
      exact List.Perm.swap a b t'
    | succ n =>
      simp at h
      have h1 := ih n x a h
      exact (List.Perm.swap b x (t'.set n a)).trans
        ((h1.cons b).trans (List.Perm.swap a b t'))

theorem set_set_swap_perm :
    ∀ (t : List α) (i j : Nat) (x y : α), j < i →
    t[j]? = some y → t[i]? = some x →
    List.Perm ((t.set i y).set j x) t := by
  intro t
  induction t with
  | nil => intro i j x y hji hj hi; simp at hj
  | cons b t' ih =>
    intro i j x y hji hj hi
    cases j with
    | zero =>
      cases i with
      | zero => omega
      | succ n =>
        simp at hj hi
        subst hj
        simpa using cons_set_perm t' n x b hi
    | succ m =>
      cases i with
      | zero => omega
      | succ n =>
        simp at hj hi
        simpa using (ih n m x y (by omega) hj hi).cons b

theorem swapList_perm (l : List α) (i j : Nat) :
    List.Perm (swapList l i j) l := by
  rcases hi : l[i]? with _ | x
  · simp [swapList, hi]
  rcases hj : l[j]? with _ | y
  · simp [swapList, hi, hj]
  simp only [swapList, hi, hj]
  rcases lt_trichotomy j i with hlt | heq | hgt
  · exact set_set_swap_perm l i j x y hlt hj hi
  · subst heq
    rw [hi] at hj
    obtain rfl : x = y := Option.some.inj hj
    rw [List.set_set, set_self_of_get? l j x hi]
  · rw [List.set_comm _ _ _ (show i ≠ j by omega)]
    exact set_set_swap_perm l j i y x hgt hi hj

theorem fyAux_perm : ∀ (n : Nat) (a : List α) (t : Nat),
    List.Perm (fyAux a t n) a := by
  intro n
  induction n with
  | zero => intro a t; exact List.Perm.refl a
  | succ i ih =>
    intro a t
    simp only [fyAux]
    exact (ih _ _).trans (swapList_perm a (i + 1) _)

theorem seededShuffle_perm (arr : List α) (codes : List Nat) :
    List.Perm (seededShuffle arr codes) arr :=
  fyAux_perm _ _ _

theorem tmod_gt_neg (a n : Int) (h : 0 < n) : -n < a.tmod n := by
  rcases le_or_lt 0 a with ha | ha
  · have := Int.tmod_nonneg n ha
    omega
  · have h1 : a.tmod n = a - n * (a.tdiv n) := by
      have := Int.tmod_add_tdiv a n
      omega
    have h2 : (-a).tmod n = (-a) - n * ((-a).tdiv n) := by
      have := Int.tmod_add_tdiv (-a) n
      omega
    have h2' : (-a).tmod n = -a + n * a.tdiv n := by
      rw [h2, Int.neg_tdiv, mul_neg]
      ring
    have h4 : (-a).tmod n < n := Int.tmod_lt_of_pos (-a) h
    omega

theorem tmod_emod_congr (a n : Int) : (a.tmod n) % n = a % n := by
  have h1 : a.tmod n = a + n * (-(a.tdiv n)) := by
    have h2 := Int.tmod_add_tdiv a n
    have h3 : n * -(a.tdiv n) = -(n * a.tdiv n) := by ring
    omega
  rw [h1]
  exact Int.add_mul_emod_self_left a n (-(a.tdiv n))

/-- The wrapped index of line 155 equals the Euclidean remainder, hence is
non-negative and below the cycle length. -/
theorem pickIdx_eq_emod (day : Int) (n : Nat) (h : 0 < n) :
    pickIdx day n = day % (n : Int) := by
  have hn : (0 : Int) < (n : Int) := by exact_mod_cast h
  have hge : 0 ≤ day.tmod n + n := by
    have := tmod_gt_neg day n hn
    omega
  unfold pickIdx
  rw [Int.tmod_eq_emod hge (by omega)]
  rw [show day.tmod n + (n : Int) = day.tmod n + n * 1 by ring,
    Int.add_mul_emod_self_left]
  exact tmod_emod_congr day n

/-- Claim C3: for a fixed non-empty duplicate-free entity list and the fixed
salt, the daily pick is total and well-indexed (the wrapped index is
non-negative and within range for every integer day number), two day numbers
select the same entity exactly when they are congruent modulo the cycle
length (= the entity count), and within any window of cycle-length
consecutive days every entity is selected exactly once. -/
theorem C3_daily_schedule (l : List Company) (hne : l ≠ []) (hnd : l.Nodup) :
    (∀ day : Int, 0 ≤ pickIdx day l.length ∧ pickIdx day l.length < l.length) ∧
    (∀ d1 d2 : Int, pickDailyAnswer l d1 = pickDailyAnswer l d2 ↔
      Int.ModEq (l.length : Int) d1 d2) ∧
    (∀ d0 : Int, ∀ c ∈ l, ∃! d : Int,
      (d0 ≤ d ∧ d < d0 + l.length) ∧ pickDailyAnswer l d = some c) := by
  have hperm := seededShuffle_perm l saltCodes
  have hlen : (seededShuffle l saltCodes).length = l.length := hperm.length_eq
  have hndS : (seededShuffle l saltCodes).Nodup := hperm.nodup_iff.mpr hnd
  have hl0 : 0 < l.length := List.length_pos.mpr hne
  have hpos : (0 : Int) < (l.length : Int) := by exact_mod_cast hl0
  have hNz : ((l.length : Int)) ≠ 0 := by omega
  have hlne : (l.length == 0) = false :=
    beq_eq_false_iff_ne.mpr (by omega)
  have hpick : ∀ d : Int, pickDailyAnswer l d =
      (seededShuffle l saltCodes).get? ((d % (l.length : Int)).toNat) := by
    intro d
    simp only [pickDailyAnswer, hlne, Bool.false_eq_true, if_false]
    rw [hlen, pickIdx_eq_emod d l.length hl0]
  have hbound : ∀ d : Int,
      (d % (l.length : Int)).toNat < (seededShuffle l saltCodes).length := by
    intro d
    have h1 := Int.emod_nonneg d hNz
    have h2 := Int.emod_lt_of_pos d hpos
    omega
  refine ⟨?_, ?_, ?_⟩
  · intro day
    rw [pickIdx_eq_emod day l.length hl0]
    exact ⟨Int.emod_nonneg day hNz, Int.emod_lt_of_pos day hpos⟩
  · intro d1 d2
    rw [hpick d1, hpick d2]
    constructor
    · intro h
      have hidx : (d1 % (l.length : Int)).toNat = (d2 % (l.length : Int)).toNat :=
        List.get?_inj (hbound d1) hndS h
      have e1 := Int.emod_nonneg d1 hNz
      have e2 := Int.emod_nonneg d2 hNz
      show d1 % (l.length : Int) = d2 % (l.length : Int)
      omega
    · intro h
      have h' : d1 % (l.length : Int) = d2 % (l.length : Int) := h
      rw [h']
  · intro d0 c hc
    obtain ⟨i, hi⟩ := List.mem_iff_get?.mp (hperm.mem_iff.mpr hc)
    have hiL : i < (seededShuffle l saltCodes).length :=
      (List.get?_eq_some.mp hi).1
    have hiN : (i : Int) < (l.length : Int) := by
      rw [hlen] at hiL
      exact_mod_cast hiL
    have he0 : 0 ≤ ((i : Int) - d0) % (l.length : Int) :=
      Int.emod_nonneg _ hNz
    have heN : ((i : Int) - d0) % (l.length : Int) < (l.length : Int) :=
      Int.emod_lt_of_pos _ hpos
    have hstar : (d0 + ((i : Int) - d0) % (l.length : Int)) % (l.length : Int) =
        (i : Int) := by
      rw [Int.add_emod, Int.emod_emod, ← Int.add_emod,
        show d0 + ((i : Int) - d0) = (i : Int) by ring]
      exact Int.emod_eq_of_lt (by omega) hiN
    refine ⟨d0 + ((i : Int) - d0) % (l.length : Int), ⟨⟨by omega, by omega⟩, ?_⟩, ?_⟩
    · rw [hpick, hstar]
      simpa using hi
    · intro d' hd'
      obtain ⟨⟨hw1, hw2⟩, hp⟩ := hd'
      rw [hpick d'] at hp
      have heq : (d' % (l.length : Int)).toNat = i :=
        List.get?_inj (hbound d') hndS (by rw [hp, hi])
      have hd0 : 0 ≤ d' % (l.length : Int) := Int.emod_nonneg d' hNz
      have hdmod : d' % (l.length : Int) = (i : Int) := by omega
      have hcong : (d' - (d0 + ((i : Int) - d0) % (l.length : Int))) %
          (l.length : Int) = 0 :=
        Int.emod_eq_emod_iff_emod_sub_eq_zero.mp (by rw [hdmod, hstar])
      have hdvd := Int.dvd_of_emod_eq_zero hcong
      have hzero := Int.eq_zero_of_abs_lt_dvd hdvd (by
        rw [abs_lt]
        constructor <;> omega)
      omega

/-- A fixed three-company list for the scheduler witness. -/
def exCompanies : List Company :=
  [⟨"Alpha Metals", "AAA", none, none, none, none, none, none, none⟩,
   ⟨"Beta Chemical", "BBB", none, none, none, none, none, none, none⟩,
   ⟨"Gamma Water", "CCC", none, none, none, none, none, none, none⟩]

/-- Claim C3, witness: the wrapped index is in range at day 20027 for a
three-company list, and days 7 and 4 pick the same company exactly because
7 ≡ 4 modulo the cycle length 3. -/
theorem C3_witness :
    (0 ≤ pickIdx 20027 exCompanies.length ∧
      pickIdx 20027 exCompanies.length < exCompanies.length) ∧
    (pickDailyAnswer exCompanies 7 = pickDailyAnswer exCompanies 4 ↔
      Int.ModEq (exCompanies.length : Int) 7 4) :=
  ⟨(C3_daily_schedule exCompanies (by decide) (by decide)).1 20027,
   (C3_daily_schedule exCompanies (by decide) (by decide)).2.1 7 4⟩

end Companydle
